import Mathlib

/-!
# Verification of a lexer / parser / interpreter pipeline

Shallow embedding of `index.py`: a three-stage pipeline turning source
text into tokens (`tokenize`), tokens into an AST forest (`parse`), and
an AST into numeric results while mutating a variable environment
(`evaluate`).  Strings are embedded as `List Char`, Python numbers as
`ℚ` (integer literals are exact, and `/` is Python's true division).
-/

universe u v

instance {ε : Type u} {α : Type v} [DecidableEq ε] [DecidableEq α] :
    DecidableEq (Except ε α) := fun
  | .ok a, .ok b => decidable_of_iff (a = b) (by simp)
  | .ok _, .error _ => isFalse (by simp)
  | .error _, .ok _ => isFalse (by simp)
  | .error e, .error f => decidable_of_iff (e = f) (by simp)

/-- Token kinds, mirroring the first components of `TOKEN_TYPES` in the
source, plus the `EOF` sentinel that `Parser.current_token` synthesizes
when probing past the last real token. -/
inductive TokType where
  | NUMBER | IDENTIFIER | ASSIGN | PLUS | MINUS | MULTIPLY | DIVIDE
  | LPAREN | RPAREN | NEWLINE | SKIP | MISMATCH | EOF
deriving DecidableEq, Repr

/-- `class Token`: an immutable (type, value) pair. -/
structure Token where
  type : TokType
  value : List Char
deriving DecidableEq, Repr

/-- Word characters of the regex `\w` (restricted to the ASCII range the
other patterns draw from): letters, digits, underscore. -/
def isWordChar (c : Char) : Bool := c.isAlphanum || c = '_'

/-- Characters opening an identifier, regex `[a-zA-Z_]`. -/
def isIdentStart (c : Char) : Bool := c.isAlpha || c = '_'

/-- Regex `\d+` at the cursor: a maximal nonempty run of digits
(`re.match` is greedy).  Returns (matched text, rest). -/
def matchNumber : List Char → Option (List Char × List Char)
  | [] => none
  | c :: cs =>
    if c.isDigit then some (c :: cs.takeWhile Char.isDigit, cs.dropWhile Char.isDigit)
    else none

/-- Regex `[a-zA-Z_]\w*` at the cursor. -/
def matchIdentifier : List Char → Option (List Char × List Char)
  | [] => none
  | c :: cs =>
    if isIdentStart c then some (c :: cs.takeWhile isWordChar, cs.dropWhile isWordChar)
    else none

/-- A single-character literal pattern (`=`, `\+`, `-`, `\*`, `/`, `\(`,
`\)`, `\n`). -/
def matchChar (ch : Char) : List Char → Option (List Char × List Char)
  | [] => none
  | c :: cs => if c = ch then some ([c], cs) else none

/-- Regex `[ \t]+` at the cursor (the `SKIP` pattern). -/
def matchSkip : List Char → Option (List Char × List Char)
  | [] => none
  | c :: cs =>
    if c = ' ' || c = '\t' then
      some (c :: cs.takeWhile (fun d => d = ' ' || d = '\t'),
            cs.dropWhile (fun d => d = ' ' || d = '\t'))
    else none

/-- Regex `.` (the `MISMATCH` catch-all): any single character except a
newline. -/
def matchMismatch : List Char → Option (List Char × List Char)
  | [] => none
  | c :: cs => if c = '\n' then none else some ([c], cs)

/-- `TOKEN_TYPES`: the priority-ordered table of (kind, pattern) pairs,
in exactly the source order. -/
def TOKEN_TYPES : List (TokType × (List Char → Option (List Char × List Char))) :=
  [ (.NUMBER,     matchNumber),
    (.IDENTIFIER, matchIdentifier),
    (.ASSIGN,     matchChar '='),
    (.PLUS,       matchChar '+'),
    (.MINUS,      matchChar '-'),
    (.MULTIPLY,   matchChar '*'),
    (.DIVIDE,     matchChar '/'),
    (.LPAREN,     matchChar '('),
    (.RPAREN,     matchChar ')'),
    (.NEWLINE,    matchChar '\n'),
    (.SKIP,       matchSkip),
    (.MISMATCH,   matchMismatch) ]

/-- First pattern in the table that matches at the cursor wins
(the inner `for`/`break` of `Lexer.tokenize`). -/
def firstMatch (table : List (TokType × (List Char → Option (List Char × List Char))))
    (cs : List Char) : Option (TokType × List Char × List Char) :=
  match table with
  | [] => none
  | (tt, m) :: rest =>
    match m cs with
    | some (value, after) => some (tt, value, after)
    | none => firstMatch rest cs

/-- One cursor-advance step of `Lexer.tokenize`. -/
def findMatch (cs : List Char) : Option (TokType × List Char × List Char) :=
  firstMatch TOKEN_TYPES cs

/-- The failure raised by the `else` arm of the token-matching loop:
`SyntaxError(f'Unexpected character: {self.code[self.pos]}')`.  The
message carries the offending character only (no offset). -/
inductive LexErr where
  | unexpectedChar (c : Char)
  | outOfFuel
deriving DecidableEq, Repr

/-- The `while self.pos < len(self.code)` loop of `Lexer.tokenize`,
recursing on the unconsumed suffix of the source.  The `fuel` argument
only makes the recursion structural: every successful match consumes at
least one character, so `fuel = length of the suffix` always suffices
(proved in `tokenizeAux_total`). -/
def tokenizeAux : Nat → List Char → Except LexErr (List Token)
  | _, [] => .ok []
  | 0, _ :: _ => .error .outOfFuel
  | fuel + 1, c :: cs =>
    match findMatch (c :: cs) with
    | some (tt, value, rest) =>
      match tokenizeAux fuel rest with
      | .ok toks => if tt = .SKIP then .ok toks else .ok (⟨tt, value⟩ :: toks)
      | .error e => .error e
    | none => .error (.unexpectedChar c)

/-- `Lexer.tokenize`. -/
def tokenize (code : List Char) : Except LexErr (List Token) :=
  tokenizeAux code.length code

/-! ## AST nodes -/

/-- The AST node classes `Number`, `Identifier`, `BinOp`, `Assign`.
`Number` stores `int(value)` of its digit string; `BinOp.op` is the
operator token's literal text; `Assign` stores the target name (the
source keeps the whole `Identifier` node and reads its `.name`). -/
inductive ASTNode where
  | Number (value : Int)
  | Identifier (name : List Char)
  | BinOp (left : ASTNode) (op : List Char) (right : ASTNode)
  | Assign (name : List Char) (expr : ASTNode)
deriving DecidableEq, Repr

/-- Python `int` of a digit string. -/
def digitsToInt (cs : List Char) : Int :=
  (cs.foldl (fun n c => 10 * n + (c.toNat - '0'.toNat)) 0 : Nat)

/-! ## Parser -/

/-- Errors raised by the parser.  `expected`/`expectedIdentifier` carry
the expected kind and the kind actually found (`Parser.consume` and
`Parser.identifier`); `unexpectedToken` carries the offending token
(`Parser.factor`).  `outOfFuel` is the artifact of the structural fuel
and is unreachable at the fuel `parse` supplies. -/
inductive ParseErr where
  | expected (exp : TokType) (found : TokType)
  | expectedIdentifier (found : TokType)
  | unexpectedToken (t : Token)
  | outOfFuel
deriving DecidableEq, Repr

abbrev Tokens := List Token

/-- `Parser.current_token`: the token at the cursor, or the synthesized
`Token('EOF', '')` past the end.  Passing the unconsumed suffix of the
token list plays the role of `self.pos`. -/
def curTok : Tokens → Token
  | [] => ⟨.EOF, []⟩
  | t :: _ => t

/-- `Parser.consume`: advance past the current token if it has the
expected kind, else raise. -/
def consume (expected : TokType) (ts : Tokens) : Except ParseErr Tokens :=
  if (curTok ts).type = expected then .ok ts.tail
  else .error (.expected expected (curTok ts).type)

/-- `Parser.identifier`: the current token must be an `IDENTIFIER`;
returns its text and consumes it. -/
def identifierStep (ts : Tokens) : Except ParseErr (List Char × Tokens) :=
  if (curTok ts).type = .IDENTIFIER then .ok ((curTok ts).value, ts.tail)
  else .error (.expectedIdentifier (curTok ts).type)

mutual

/-- `Parser.expr`: `term (('+' | '-') term)*`. -/
def exprF : Nat → Tokens → Except ParseErr (ASTNode × Tokens)
  | 0, _ => .error .outOfFuel
  | fuel + 1, ts => do
    let (node, ts₁) ← termF fuel ts
    exprLoopF fuel node ts₁

/-- The `while` loop inside `Parser.expr`. -/
def exprLoopF : Nat → ASTNode → Tokens → Except ParseErr (ASTNode × Tokens)
  | 0, _, _ => .error .outOfFuel
  | fuel + 1, node, ts =>
    if (curTok ts).type = .PLUS ∨ (curTok ts).type = .MINUS then do
      let op := (curTok ts).value
      let ts₁ ← consume (curTok ts).type ts
      let (rhs, ts₂) ← termF fuel ts₁
      exprLoopF fuel (.BinOp node op rhs) ts₂
    else .ok (node, ts)

/-- `Parser.term`: `factor (('*' | '/') factor)*`. -/
def termF : Nat → Tokens → Except ParseErr (ASTNode × Tokens)
  | 0, _ => .error .outOfFuel
  | fuel + 1, ts => do
    let (node, ts₁) ← factorF fuel ts
    termLoopF fuel node ts₁

/-- The `while` loop inside `Parser.term`. -/
def termLoopF : Nat → ASTNode → Tokens → Except ParseErr (ASTNode × Tokens)
  | 0, _, _ => .error .outOfFuel
  | fuel + 1, node, ts =>
    if (curTok ts).type = .MULTIPLY ∨ (curTok ts).type = .DIVIDE then do
      let op := (curTok ts).value
      let ts₁ ← consume (curTok ts).type ts
      let (rhs, ts₂) ← factorF fuel ts₁
      termLoopF fuel (.BinOp node op rhs) ts₂
    else .ok (node, ts)

/-- `Parser.factor`: `NUMBER | IDENTIFIER | '(' expr ')'`, else raise
`Unexpected token`. -/
def factorF : Nat → Tokens → Except ParseErr (ASTNode × Tokens)
  | 0, _ => .error .outOfFuel
  | fuel + 1, ts =>
    if (curTok ts).type = .NUMBER then do
      let ts₁ ← consume .NUMBER ts
      .ok (.Number (digitsToInt (curTok ts).value), ts₁)
    else if (curTok ts).type = .IDENTIFIER then do
      let ts₁ ← consume .IDENTIFIER ts
      .ok (.Identifier (curTok ts).value, ts₁)
    else if (curTok ts).type = .LPAREN then do
      let ts₁ ← consume .LPAREN ts
      let (node, ts₂) ← exprF fuel ts₁
      let ts₃ ← consume .RPAREN ts₂
      .ok (node, ts₃)
    else .error (.unexpectedToken (curTok ts))

end

/-- `Parser.assignment`: `identifier '=' expr`. -/
def assignmentF (fuel : Nat) (ts : Tokens) : Except ParseErr (ASTNode × Tokens) := do
  let (name, ts₁) ← identifierStep ts
  let ts₂ ← consume .ASSIGN ts₁
  let (e, ts₃) ← exprF fuel ts₂
  .ok (.Assign name e, ts₃)

/-- The `while self.current_token().type != 'EOF'` loop of
`Parser.parse`: skip `NEWLINE` tokens, otherwise parse an assignment. -/
def parseF : Nat → Tokens → Except ParseErr (List ASTNode)
  | 0, _ => .error .outOfFuel
  | fuel + 1, ts =>
    if (curTok ts).type = .EOF then .ok []
    else if (curTok ts).type = .NEWLINE then parseF fuel ts.tail
    else do
      let (stmt, ts₁) ← assignmentF fuel ts
      let stmts ← parseF fuel ts₁
      .ok (stmt :: stmts)

/-- `Parser.parse`.  Each unit of fuel either consumes a token or moves
one level down the `expr → term → factor → ( expr )` chain, at least
every third level consuming a token, so `4 * length + 4` units are never
exhausted; the `outOfFuel` branch is unreachable at this fuel. -/
def parse (ts : Tokens) : Except ParseErr (List ASTNode) :=
  parseF (4 * ts.length + 4) ts

/-! ## Interpreter -/

/-- Errors raised during evaluation: `undefinedVariable` is the
`NameError(f'Variable {node.name} not defined')`; `divisionByZero` is
the host `ZeroDivisionError` that `left / right` raises on a zero
divisor; `unsupportedNode` is the defensive
`ValueError('Unsupported node type')` arm.  (A `BinOp` whose `op` is
none of the four operators falls through every `elif` in the source and
implicitly returns Python `None`; the parser never builds such a node —
operator tokens match exactly the four single-character patterns — and
we map that dead fall-through to `unsupportedNode` as well.) -/
inductive EvalErr where
  | undefinedVariable (name : List Char)
  | divisionByZero
  | unsupportedNode
deriving DecidableEq, Repr

/-- `self.variables`: insertion-ordered mapping from names to values,
as a duplicate-free association list.  `ℚ` stands for Python's numbers:
`+`, `-`, `*` on integers stay integral, `/` is true division. -/
abbrev Env := List (List Char × ℚ)

/-- Dictionary lookup `self.variables[name]` guarded by
`name in self.variables`. -/
def lookupVar (env : Env) (name : List Char) : Option ℚ :=
  (env.find? (fun p => p.1 = name)).map (·.2)

/-- Dictionary store `self.variables[name] = value`: overwrite in place
if the key exists, else append. -/
def insertVar (env : Env) (name : List Char) (v : ℚ) : Env :=
  if env.any (fun p => p.1 = name) then
    env.map (fun p => if p.1 = name then (name, v) else p)
  else env ++ [(name, v)]

/-- `Interpreter.evaluate`, with the mutation of `self.variables` made
explicit: every branch returns the environment as left by the
evaluation together with the result or the raised error. -/
def evaluate : ASTNode → Env → Env × Except EvalErr ℚ
  | .Number v, env => (env, .ok (v : ℚ))
  | .Identifier name, env =>
    match lookupVar env name with
    | some v => (env, .ok v)
    | none => (env, .error (.undefinedVariable name))
  | .BinOp l op r, env =>
    match evaluate l env with
    | (env₁, .error e) => (env₁, .error e)
    | (env₁, .ok a) =>
      match evaluate r env₁ with
      | (env₂, .error e) => (env₂, .error e)
      | (env₂, .ok b) =>
        if op = ['+'] then (env₂, .ok (a + b))
        else if op = ['-'] then (env₂, .ok (a - b))
        else if op = ['*'] then (env₂, .ok (a * b))
        else if op = ['/'] then
          if b = 0 then (env₂, .error .divisionByZero) else (env₂, .ok (a / b))
        else (env₂, .error .unsupportedNode)
  | .Assign name e, env =>
    match evaluate e env with
    | (env₁, .ok v) => (insertVar env₁ name v, .ok v)
    | (env₁, .error err) => (env₁, .error err)

/-- The driver loop `for node in ast: interpreter.evaluate(node)`:
statements run in source order against one shared environment, stopping
at the first raised error. -/
def runStatements : List ASTNode → Env → Env × Option EvalErr
  | [], env => (env, none)
  | n :: ns, env =>
    match evaluate n env with
    | (env₁, .ok _) => runStatements ns env₁
    | (env₁, .error e) => (env₁, some e)

/-- The whole pipeline on one source text: the token sequence, the AST
forest, and the final environment with the first evaluation error if
any. -/
def runPipeline (code : List Char) :
    Except LexErr (Tokens × Except ParseErr (List ASTNode × Env × Option EvalErr)) :=
  (tokenize code).map fun ts =>
    (ts, (parse ts).map fun ast => (ast, runStatements ast []))

/-- The final variable environment of a run that lexes, parses and
evaluates without error. -/
def finalEnv (code : List Char) : Option Env :=
  match runPipeline code with
  | .ok (_, .ok (_, env, none)) => some env
  | _ => none

/-- Lexing followed by parsing, without evaluation. -/
def parsePipeline (code : List Char) : Except LexErr (Except ParseErr (List ASTNode)) :=
  (tokenize code).map parse


/-! ## Lexer lemmas: every pattern match is nonempty and splits the
input, and some pattern always matches -/

theorem matchNumber_sound {cs m r : List Char} (h : matchNumber cs = some (m, r)) :
    m ≠ [] ∧ m ++ r = cs := by
  cases cs with
  | nil => simp [matchNumber] at h
  | cons c cs =>
    simp only [matchNumber] at h
    split at h
    · obtain ⟨rfl, rfl⟩ := Prod.mk.injEq .. ▸ (Option.some.injEq .. ▸ h)
      exact ⟨by simp, by simp [@List.takeWhile_append_dropWhile _ Char.isDigit cs]⟩
    · exact absurd h (by simp)

theorem matchIdentifier_sound {cs m r : List Char}
    (h : matchIdentifier cs = some (m, r)) : m ≠ [] ∧ m ++ r = cs := by
  cases cs with
  | nil => simp [matchIdentifier] at h
  | cons c cs =>
    simp only [matchIdentifier] at h
    split at h
    · obtain ⟨rfl, rfl⟩ := Prod.mk.injEq .. ▸ (Option.some.injEq .. ▸ h)
      exact ⟨by simp, by simp [@List.takeWhile_append_dropWhile _ isWordChar cs]⟩
    · exact absurd h (by simp)

theorem matchChar_sound {ch : Char} {cs m r : List Char}
    (h : matchChar ch cs = some (m, r)) : m ≠ [] ∧ m ++ r = cs := by
  cases cs with
  | nil => simp [matchChar] at h
  | cons c cs =>
    simp only [matchChar] at h
    split at h
    · obtain ⟨rfl, rfl⟩ := Prod.mk.injEq .. ▸ (Option.some.injEq .. ▸ h)
      exact ⟨by simp, by simp⟩
    · exact absurd h (by simp)

theorem matchSkip_sound {cs m r : List Char} (h : matchSkip cs = some (m, r)) :
    m ≠ [] ∧ m ++ r = cs := by
  cases cs with
  | nil => simp [matchSkip] at h
  | cons c cs =>
    simp only [matchSkip] at h
    split at h
    · obtain ⟨rfl, rfl⟩ := Prod.mk.injEq .. ▸ (Option.some.injEq .. ▸ h)
      exact ⟨by simp,
        by simp [@List.takeWhile_append_dropWhile _ (fun d => d = ' ' || d = '\t') cs]⟩
    · exact absurd h (by simp)

theorem matchMismatch_sound {cs m r : List Char}
    (h : matchMismatch cs = some (m, r)) : m ≠ [] ∧ m ++ r = cs := by
  cases cs with
  | nil => simp [matchMismatch] at h
  | cons c cs =>
    simp only [matchMismatch] at h
    split at h
    · exact absurd h (by simp)
    · obtain ⟨rfl, rfl⟩ := Prod.mk.injEq .. ▸ (Option.some.injEq .. ▸ h)
      exact ⟨by simp, by simp⟩

theorem firstMatch_mem {table : List (TokType × (List Char → Option (List Char × List Char)))}
    {cs : List Char} {tt : TokType} {m r : List Char}
    (h : firstMatch table cs = some (tt, m, r)) :
    ∃ e ∈ table, e.1 = tt ∧ e.2 cs = some (m, r) := by
  induction table with
  | nil => simp [firstMatch] at h
  | cons e rest ih =>
    obtain ⟨t1, f⟩ := e
    simp only [firstMatch] at h
    split at h
    · next val hv =>
      obtain ⟨rfl, rfl, rfl⟩ := by simpa using h
      exact ⟨(t1, f), by simp, rfl, by simpa using hv⟩
    · obtain ⟨e, he, h1, h2⟩ := ih h
      exact ⟨e, by simp [he], h1, h2⟩

theorem firstMatch_none {table : List (TokType × (List Char → Option (List Char × List Char)))}
    {cs : List Char} (h : firstMatch table cs = none) :
    ∀ e ∈ table, e.2 cs = none := by
  induction table with
  | nil => simp
  | cons e rest ih =>
    obtain ⟨t1, f⟩ := e
    simp only [firstMatch] at h
    split at h
    · exact absurd h (by simp)
    · next hv =>
      intro e he
      rcases List.mem_cons.1 he with rfl | he
      · exact hv
      · exact ih h e he

/-- Whatever `findMatch` returns is a nonempty prefix of the input. -/
theorem findMatch_sound {cs m r : List Char} {tt : TokType}
    (h : findMatch cs = some (tt, m, r)) : m ≠ [] ∧ m ++ r = cs := by
  obtain ⟨e, he, -, h2⟩ := firstMatch_mem h
  simp only [TOKEN_TYPES, List.mem_cons, List.not_mem_nil, or_false] at he
  rcases he with rfl | rfl | rfl | rfl | rfl | rfl | rfl | rfl | rfl | rfl | rfl | rfl
  · exact matchNumber_sound h2
  · exact matchIdentifier_sound h2
  · exact matchChar_sound h2
  · exact matchChar_sound h2
  · exact matchChar_sound h2
  · exact matchChar_sound h2
  · exact matchChar_sound h2
  · exact matchChar_sound h2
  · exact matchChar_sound h2
  · exact matchChar_sound h2
  · exact matchSkip_sound h2
  · exact matchMismatch_sound h2

/-- On a nonempty input some pattern always matches: `NEWLINE` accepts a
newline and the catch-all `MISMATCH` accepts every other character. -/
theorem findMatch_isSome (c : Char) (cs : List Char) :
    (findMatch (c :: cs)).isSome := by
  cases h : findMatch (c :: cs) with
  | some val => simp
  | none =>
    exfalso
    have hall := firstMatch_none h
    have hnl : matchChar '\n' (c :: cs) = none := by
      simpa using hall (.NEWLINE, matchChar '\n') (by simp [TOKEN_TYPES])
    have hmm : matchMismatch (c :: cs) = none := by
      simpa using hall (.MISMATCH, matchMismatch) (by simp [TOKEN_TYPES])
    by_cases hc : c = '\n'
    · simp [matchChar, hc] at hnl
    · simp [matchMismatch, hc] at hmm

/-- Progress: at every position of a nonempty remainder, the matcher
consumes at least one character. -/
theorem findMatch_progress (c : Char) (cs : List Char) :
    ∃ tt m r, findMatch (c :: cs) = some (tt, m, r) ∧ m ≠ [] ∧
      m ++ r = c :: cs ∧ r.length < (c :: cs).length := by
  obtain ⟨⟨tt, m, r⟩, h⟩ := Option.isSome_iff_exists.1 (findMatch_isSome c cs)
  obtain ⟨hm, hsplit⟩ := findMatch_sound h
  refine ⟨tt, m, r, h, hm, hsplit, ?_⟩
  have : m.length + r.length = (c :: cs).length := by
    rw [← List.length_append, hsplit]
  have hm1 : 1 ≤ m.length := by
    cases m with
    | nil => exact absurd rfl hm
    | cons x xs => simp
  omega

/-- With fuel at least the length of the remainder, the lexing loop
always returns a token list: the `Unexpected character` branch and the
fuel bound are both unreachable. -/
theorem tokenizeAux_ok : ∀ (fuel : Nat) (cs : List Char), cs.length ≤ fuel →
    ∃ ts, tokenizeAux fuel cs = .ok ts := by
  intro fuel
  induction fuel with
  | zero =>
    intro cs hcs
    have : cs = [] := List.length_eq_zero.1 (Nat.le_zero.1 hcs)
    exact ⟨[], by simp [this, tokenizeAux]⟩
  | succ fuel ih =>
    intro cs hcs
    cases cs with
    | nil => exact ⟨[], by simp [tokenizeAux]⟩
    | cons c cs =>
      obtain ⟨tt, m, r, hfm, -, -, hlt⟩ := findMatch_progress c cs
      have hr : r.length ≤ fuel := by
        simp only [List.length_cons] at hlt hcs
        omega
      obtain ⟨ts, hts⟩ := ih r hr
      by_cases hskip : tt = .SKIP
      · exact ⟨ts, by simp [tokenizeAux, hfm, hts, hskip]⟩
      · exact ⟨⟨tt, m⟩ :: ts, by simp [tokenizeAux, hfm, hts, hskip]⟩

/-- `tokenize` never fails: the catch-all pattern accepts every
character the other patterns reject, so the lexer always returns a
token list. -/
theorem tokenize_total (cs : List Char) : ∃ ts, tokenize cs = .ok ts :=
  tokenizeAux_ok cs.length cs le_rfl

/-! ## Parser lemmas -/

/-- A leading `NEWLINE` token is consumed without contributing a
statement. -/
theorem parseF_newline (fuel : Nat) (t : Token) (ts : Tokens)
    (h : t.type = .NEWLINE) : parseF (fuel + 1) (t :: ts) = parseF fuel ts := by
  simp [parseF, curTok, h]

/-- If the first non-`NEWLINE` token is neither `EOF` nor an
`IDENTIFIER`, the parse loop fails at `Parser.identifier` naming that
token's kind. -/
theorem parseF_head_not_identifier :
    ∀ (ts : Tokens) (fuel : Nat) (t : Token) (rest : Tokens),
      ts.dropWhile (fun tk => tk.type == TokType.NEWLINE) = t :: rest →
      (ts.takeWhile (fun tk => tk.type == TokType.NEWLINE)).length < fuel →
      t.type ≠ .EOF → t.type ≠ .IDENTIFIER →
      parseF fuel ts = .error (.expectedIdentifier t.type) := by
  intro ts
  induction ts with
  | nil => intro fuel t rest hdrop; simp at hdrop
  | cons tk ts ih =>
    intro fuel t rest hdrop hfuel heof hid
    by_cases hnl : tk.type = TokType.NEWLINE
    · simp only [List.dropWhile_cons, List.takeWhile_cons, hnl, beq_self_eq_true,
        if_true, List.length_cons] at hdrop hfuel
      cases fuel with
      | zero => omega
      | succ fuel =>
        rw [parseF_newline fuel tk ts hnl]
        exact ih fuel t rest hdrop (by omega) heof hid
    · have hbeq : (tk.type == TokType.NEWLINE) = false := by
        simpa using hnl
      simp only [List.dropWhile_cons, hbeq, if_false, Bool.false_eq_true] at hdrop
      obtain ⟨rfl, rfl⟩ := by simpa using hdrop
      cases fuel with
      | zero => omega
      | succ fuel =>
        simp [parseF, curTok, heof, hnl, assignmentF, identifierStep, hid,
          Bind.bind, Except.bind]

/-- If the first non-`NEWLINE` token is an `IDENTIFIER` but the next
token is not `=`, the parse loop fails at `consume('ASSIGN')` naming
the kind actually found. -/
theorem parseF_missing_assign :
    ∀ (ts : Tokens) (fuel : Nat) (t : Token) (rest : Tokens),
      ts.dropWhile (fun tk => tk.type == TokType.NEWLINE) = t :: rest →
      (ts.takeWhile (fun tk => tk.type == TokType.NEWLINE)).length < fuel →
      t.type = .IDENTIFIER → (curTok rest).type ≠ .ASSIGN →
      parseF fuel ts = .error (.expected .ASSIGN (curTok rest).type) := by
  intro ts
  induction ts with
  | nil => intro fuel t rest hdrop; simp at hdrop
  | cons tk ts ih =>
    intro fuel t rest hdrop hfuel hid hassign
    by_cases hnl : tk.type = TokType.NEWLINE
    · simp only [List.dropWhile_cons, List.takeWhile_cons, hnl, beq_self_eq_true,
        if_true, List.length_cons] at hdrop hfuel
      cases fuel with
      | zero => omega
      | succ fuel =>
        rw [parseF_newline fuel tk ts hnl]
        exact ih fuel t rest hdrop (by omega) hid hassign
    · have hbeq : (tk.type == TokType.NEWLINE) = false := by
        simpa using hnl
      simp only [List.dropWhile_cons, hbeq, if_false, Bool.false_eq_true] at hdrop
      obtain ⟨rfl, rfl⟩ := by simpa using hdrop
      cases fuel with
      | zero => omega
      | succ fuel =>
        cases ts with
        | nil =>
          simp [parseF, curTok, hid, hnl, assignmentF, identifierStep, consume,
            hassign, Bind.bind, Except.bind] at hassign ⊢
        | cons tk2 ts =>
          simp only [curTok] at hassign
          simp [parseF, curTok, hid, hnl, assignmentF, identifierStep, consume,
            hassign, Bind.bind, Except.bind]

/-- The newline prefix of a token list is no longer than the list, so
the fuel `parse` supplies covers it. -/
theorem parse_head_not_identifier (ts : Tokens) (t : Token) (rest : Tokens)
    (hdrop : ts.dropWhile (fun tk => tk.type == TokType.NEWLINE) = t :: rest)
    (heof : t.type ≠ .EOF) (hid : t.type ≠ .IDENTIFIER) :
    parse ts = .error (.expectedIdentifier t.type) := by
  refine parseF_head_not_identifier ts _ t rest hdrop ?_ heof hid
  have htw : (List.takeWhile (fun tk => tk.type == TokType.NEWLINE) ts).length ≤ ts.length :=
    (List.takeWhile_sublist _).length_le
  omega

theorem parse_missing_assign (ts : Tokens) (t : Token) (rest : Tokens)
    (hdrop : ts.dropWhile (fun tk => tk.type == TokType.NEWLINE) = t :: rest)
    (hid : t.type = .IDENTIFIER) (hassign : (curTok rest).type ≠ .ASSIGN) :
    parse ts = .error (.expected .ASSIGN (curTok rest).type) := by
  refine parseF_missing_assign ts _ t rest hdrop ?_ hid hassign
  have htw : (List.takeWhile (fun tk => tk.type == TokType.NEWLINE) ts).length ≤ ts.length :=
    (List.takeWhile_sublist _).length_le
  omega

/-! ## Interpreter lemmas -/

/-- `v` occurs as a variable reference inside the node. -/
def occursVar (v : List Char) : ASTNode → Bool
  | .Number _ => false
  | .Identifier n => n = v
  | .BinOp l _ r => occursVar v l || occursVar v r
  | .Assign _ e => occursVar v e

/-- Expression nodes as the parser builds them: no nested `Assign`, and
every operator is one of the four the grammar produces. -/
def isExpr : ASTNode → Bool
  | .Number _ => true
  | .Identifier _ => true
  | .BinOp l op r =>
    (op = ['+'] || op = ['-'] || op = ['*'] || op = ['/']) && isExpr l && isExpr r
  | .Assign _ _ => false

/-- Evaluating an expression never touches the environment: only the
`Assign` branch writes to `self.variables`. -/
theorem evaluate_env_eq (e : ASTNode) (env : Env) (he : isExpr e = true) :
    (evaluate e env).1 = env := by
  induction e generalizing env with
  | Number val => simp [evaluate]
  | Identifier n =>
    simp only [evaluate]
    cases h : lookupVar env n <;> simp [h]
  | BinOp l op r ihl ihr =>
    simp only [isExpr, Bool.and_eq_true] at he
    obtain ⟨⟨hop, hl⟩, hr⟩ := he
    rcases hle : evaluate l env with ⟨env₁, rl⟩
    have h1 : env₁ = env := by have := ihl env hl; rw [hle] at this; exact this
    subst h1
    cases rl with
    | error e1 => simp [evaluate, hle]
    | ok a =>
      rcases hre : evaluate r env₁ with ⟨env₂, rr⟩
      have h2 : env₂ = env₁ := by have := ihr env₁ hr; rw [hre] at this; exact this
      subst h2
      cases rr with
      | error e2 => simp [evaluate, hle, hre]
      | ok b =>
        simp only [evaluate, hle, hre]
        split_ifs <;> simp
  | Assign n e ih => simp [isExpr] at he

/-- Any error raised while evaluating an expression is either the
division-by-zero failure or an undefined-variable failure naming a
variable that occurs in the expression and is absent from the
environment. -/
theorem evaluate_error_cases (e : ASTNode) :
    ∀ (env : Env) (err : EvalErr), isExpr e = true →
      (evaluate e env).2 = .error err →
      err = .divisionByZero ∨
        ∃ w, err = .undefinedVariable w ∧ occursVar w e = true ∧
          lookupVar env w = none := by
  induction e with
  | Number val => intro env err he h; simp [evaluate] at h
  | Identifier n =>
    intro env err he h
    simp only [evaluate] at h
    cases hl : lookupVar env n with
    | some val => rw [hl] at h; simp at h
    | none =>
      rw [hl] at h
      simp only [Except.error.injEq] at h
      exact .inr ⟨n, h.symm ▸ rfl, by simp [occursVar], hl⟩
  | BinOp l op r ihl ihr =>
    intro env err he h
    simp only [isExpr, Bool.and_eq_true] at he
    obtain ⟨⟨hop, hel⟩, her⟩ := he
    rcases hle : evaluate l env with ⟨env₁, rl⟩
    have henv1 : env₁ = env := by
      have := evaluate_env_eq l env hel; rw [hle] at this; exact this
    rw [henv1] at hle
    cases rl with
    | error e1 =>
      simp only [evaluate, hle] at h
      have he1 : e1 = err := by simpa using h
      subst he1
      rcases ihl env e1 hel (by rw [hle]) with hdiv | ⟨w, hw, hocc, habs⟩
      · exact .inl hdiv
      · exact .inr ⟨w, hw, by simp [occursVar, hocc], habs⟩
    | ok a =>
      rcases hre : evaluate r env with ⟨env₂, rr⟩
      have henv2 : env₂ = env := by
        have := evaluate_env_eq r env her; rw [hre] at this; exact this
      rw [henv2] at hre
      cases rr with
      | error e2 =>
        simp only [evaluate, hle, hre] at h
        have he2 : e2 = err := by simpa using h
        subst he2
        rcases ihr env e2 her (by rw [hre]) with hdiv | ⟨w, hw, hocc, habs⟩
        · exact .inl hdiv
        · exact .inr ⟨w, hw, by simp [occursVar, hocc], habs⟩
      | ok b =>
        simp only [evaluate, hle, hre] at h
        rcases (by simpa using hop :
            ((op = ['+'] ∨ op = ['-']) ∨ op = ['*']) ∨ op = ['/'])
          with ((rfl | rfl) | rfl) | rfl
        · simp at h
        · simp at h
        · simp at h
        · by_cases hb : b = 0
          · rw [if_neg (by decide), if_neg (by decide), if_neg (by decide), if_pos rfl,
              if_pos hb] at h
            have : EvalErr.divisionByZero = err := by simpa using h
            exact .inl this.symm
          · rw [if_neg (by decide), if_neg (by decide), if_neg (by decide), if_pos rfl,
              if_neg hb] at h
            simp at h
  | Assign n e ih => intro env err he h; simp [isExpr] at he

/-- An expression that reads a variable absent from the environment
cannot evaluate successfully. -/
theorem evaluate_absent_fails (e : ASTNode) :
    ∀ (env : Env) (v : List Char), isExpr e = true → occursVar v e = true →
      lookupVar env v = none → ∃ err, (evaluate e env).2 = .error err := by
  induction e with
  | Number val => intro env v he hocc habs; simp [occursVar] at hocc
  | Identifier n =>
    intro env v he hocc habs
    have hnv : n = v := by simpa [occursVar] using hocc
    subst hnv
    exact ⟨.undefinedVariable n, by simp [evaluate, habs]⟩
  | BinOp l op r ihl ihr =>
    intro env v he hocc habs
    simp only [isExpr, Bool.and_eq_true] at he
    obtain ⟨⟨hop, hel⟩, her⟩ := he
    rcases hle : evaluate l env with ⟨env₁, rl⟩
    have henv1 : env₁ = env := by
      have := evaluate_env_eq l env hel; rw [hle] at this; exact this
    rw [henv1] at hle
    cases rl with
    | error e1 => exact ⟨e1, by simp [evaluate, hle]⟩
    | ok a =>
      rcases hre : evaluate r env with ⟨env₂, rr⟩
      have henv2 : env₂ = env := by
        have := evaluate_env_eq r env her; rw [hre] at this; exact this
      rw [henv2] at hre
      cases rr with
      | error e2 => exact ⟨e2, by simp [evaluate, hle, hre]⟩
      | ok b =>
        exfalso
        rcases (by simpa [occursVar] using hocc :
            occursVar v l = true ∨ occursVar v r = true) with hv | hv
        · obtain ⟨err, herr⟩ := ihl env v hel hv habs
          rw [hle] at herr; simp at herr
        · obtain ⟨err, herr⟩ := ihr env v her hv habs
          rw [hre] at herr; simp at herr
  | Assign n e ih => intro env v he hocc habs; simp [isExpr] at he

/-- Overwriting an existing binding in place leaves the new pair where
the old key was found. -/
theorem find_overwrite (n : List Char) (v : ℚ) :
    ∀ env : Env, env.any (fun q => q.1 = n) = true →
      List.find? (fun q => q.1 = n)
        (env.map (fun q => if q.1 = n then (n, v) else q)) = some (n, v) := by
  intro env hany
  induction env with
  | nil => simp at hany
  | cons p env ih =>
    by_cases hp : p.1 = n
    · simp only [List.map_cons, if_pos hp]
      exact List.find?_cons_of_pos _ (by simp)
    · have hany2 : env.any (fun q => q.1 = n) = true := by
        simpa [List.any_cons, hp] using hany
      simp only [List.map_cons, if_neg hp]
      rw [List.find?_cons_of_neg _ (by simp [hp])]
      exact ih hany2

/-- Appending a fresh binding is found after every existing key fails
to match. -/
theorem find_append_new (n : List Char) (v : ℚ) :
    ∀ env : Env, env.any (fun q => q.1 = n) = false →
      List.find? (fun q => q.1 = n) (env ++ [(n, v)]) = some (n, v) := by
  intro env hany
  induction env with
  | nil => exact List.find?_cons_of_pos _ (by simp)
  | cons p env ih =>
    rw [List.any_cons, Bool.or_eq_false_iff] at hany
    obtain ⟨hp, hany2⟩ := hany
    rw [List.cons_append, List.find?_cons_of_neg _ (by simp [hp])]
    exact ih hany2

/-- Storing under a name and reading that name back yields the stored
value, whether the store overwrote an existing binding or appended a
new one. -/
theorem lookupVar_insertVar (env : Env) (n : List Char) (v : ℚ) :
    lookupVar (insertVar env n v) n = some v := by
  unfold insertVar lookupVar
  by_cases hany : env.any (fun q => q.1 = n) = true
  · rw [if_pos hany, find_overwrite n v env hany]
    rfl
  · have hf : env.any (fun q => q.1 = n) = false := by
      cases h : env.any (fun q => q.1 = n)
      · rfl
      · exact absurd h hany
    rw [if_neg hany, find_append_new n v env hf]
    rfl

/-- `Assign` evaluates its right-hand side and stores the result under
the target name, returning it. -/
theorem evaluate_assign_ok (name : List Char) (e : ASTNode) (env env₁ : Env) (v : ℚ)
    (h : evaluate e env = (env₁, .ok v)) :
    evaluate (.Assign name e) env = (insertVar env₁ name v, .ok v) := by
  simp [evaluate, h]

/-- `/` on two successfully evaluated operands performs exact
(non-truncating) division. -/
theorem evaluate_div_ok (l r : ASTNode) (env env₁ env₂ : Env) (a b : ℚ)
    (hl : evaluate l env = (env₁, .ok a)) (hr : evaluate r env₁ = (env₂, .ok b))
    (hb : b ≠ 0) :
    evaluate (.BinOp l ['/'] r) env = (env₂, .ok (a / b)) := by
  simp only [evaluate, hl, hr]
  rw [if_neg (by decide), if_neg (by decide), if_neg (by decide)]
  simp [hb]

/-! ## Claim theorems -/

/-- Claim C1 (code evidence): on `"x = 5 $ 2"` the lexer does not fail.
The `MISMATCH` catch-all matches `$` and, since only `SKIP` tokens are
suppressed, a `MISMATCH` token is emitted and `tokenize` returns all
five tokens; the `Unexpected character` branch is never reached.  This
contradicts the claim that catch-all matching is a fatal `LexError`
with no token emitted. -/
theorem tokenize_emits_mismatch_token :
    tokenize "x = 5 $ 2".data =
      .ok [⟨.IDENTIFIER, ['x']⟩, ⟨.ASSIGN, ['=']⟩, ⟨.NUMBER, ['5']⟩,
           ⟨.MISMATCH, ['$']⟩, ⟨.NUMBER, ['2']⟩] := by decide

/-- Claim C2 (counterexample): the assignment parsed from
`"y = 1 / 0 + z"` has the absent variable `z` in its right-hand side,
yet evaluation fails with the division-by-zero error rather than
`UndefinedVariableError` naming `z` — the left operand of `+` raises
first. -/
theorem assign_absent_var_counterexample :
    parsePipeline "y = 1 / 0 + z".data =
      .ok (.ok [.Assign ['y']
        (.BinOp (.BinOp (.Number 1) ['/'] (.Number 0)) ['+'] (.Identifier ['z']))]) ∧
    evaluate (.Assign ['y']
        (.BinOp (.BinOp (.Number 1) ['/'] (.Number 0)) ['+'] (.Identifier ['z']))) [] =
      ([], .error .divisionByZero) ∧
    occursVar ['z']
      (.BinOp (.BinOp (.Number 1) ['/'] (.Number 0)) ['+'] (.Identifier ['z'])) = true ∧
    lookupVar [] ['z'] = none :=
  ⟨by decide, by decide, by decide, rfl⟩

/-- Claim C2 (amended): evaluating an assignment whose right-hand
expression reads a variable absent from the environment always fails
and leaves the environment unchanged — in particular no binding for the
target is created; the error is `UndefinedVariableError` naming an
absent variable occurring in the expression, unless a division by zero
is raised first. -/
theorem assign_absent_var_fails (name : List Char) (e : ASTNode) (env : Env)
    (v : List Char) (he : isExpr e = true) (hocc : occursVar v e = true)
    (habs : lookupVar env v = none) :
    ∃ err, evaluate (.Assign name e) env = (env, .error err) ∧
      (err = .divisionByZero ∨
        ∃ w, err = .undefinedVariable w ∧ occursVar w e = true ∧
          lookupVar env w = none) := by
  obtain ⟨err, herr⟩ := evaluate_absent_fails e env v he hocc habs
  rcases hev : evaluate e env with ⟨env₁, r⟩
  have henv : env₁ = env := by
    have := evaluate_env_eq e env he; rw [hev] at this; exact this
  rw [henv] at hev
  rw [hev] at herr
  have hr : r = .error err := herr
  subst hr
  refine ⟨err, ?_, ?_⟩
  · simp [evaluate, hev]
  · exact evaluate_error_cases e env err he (by rw [hev])

/-- Witness for the amended Claim C2 at the program `"y = z + 1"` in
the empty environment: evaluation fails, the environment stays empty,
and the error names the absent variable. -/
theorem assign_absent_var_fails_witness :
    ∃ err, evaluate (.Assign ['y'] (.BinOp (.Identifier ['z']) ['+'] (.Number 1))) [] =
        ([], .error err) ∧
      (err = .divisionByZero ∨
        ∃ w, err = .undefinedVariable w ∧
          occursVar w (.BinOp (.Identifier ['z']) ['+'] (.Number 1)) = true ∧
          lookupVar [] w = none) :=
  assign_absent_var_fails ['y'] _ [] ['z'] (by decide) (by decide) rfl

section
attribute [local semireducible] Rat.mul Rat.add Rat.inv Rat.sub Rat.ofScientific

/-- Claim C3: the full pipeline on `"x = 2 + 3 * 4"` parses the
multiplication inside the right operand of the addition (`term` is the
repetition unit inside `expr`) and yields `x = 14`, never `20`. -/
theorem pipeline_precedence :
    parsePipeline "x = 2 + 3 * 4".data =
      .ok (.ok [.Assign ['x']
        (.BinOp (.Number 2) ['+'] (.BinOp (.Number 3) ['*'] (.Number 4)))]) ∧
    finalEnv "x = 2 + 3 * 4".data = some [(['x'], 14)] ∧ (14 : ℚ) ≠ 20 :=
  ⟨by decide, by decide, by decide⟩

/-- Claim C4: `/` always performs exact non-truncating division on the
values of its operands, whatever nodes produced them; in particular
`"x = 5 / 2"` binds `x` to `2.5`, not the truncated integer `2`. -/
theorem division_non_truncating :
    (∀ (l r : ASTNode) (env env₁ env₂ : Env) (a b : ℚ),
        evaluate l env = (env₁, .ok a) → evaluate r env₁ = (env₂, .ok b) → b ≠ 0 →
        evaluate (.BinOp l ['/'] r) env = (env₂, .ok (a / b))) ∧
    finalEnv "x = 5 / 2".data = some [(['x'], 5 / 2)] ∧
    (5 / 2 : ℚ) = 2.5 ∧ (5 / 2 : ℚ) ≠ 2 :=
  ⟨evaluate_div_ok, by decide, by decide, by decide⟩

/-- Witness for Claim C4 at the expression `5 / 2` in the empty
environment: integer operands still divide exactly. -/
theorem division_non_truncating_witness :
    evaluate (.BinOp (.Number 5) ['/'] (.Number 2)) [] = ([], .ok (5 / 2)) :=
  division_non_truncating.1 (.Number 5) (.Number 2) [] [] [] 5 2
    (by decide) (by decide) (by decide)

/-- Claim C5: a statement must start with an identifier and continue
with `=`: if the first non-newline token is not an `IDENTIFIER` (so in
particular for a bare expression statement), `parse` fails with the
expected-identifier error naming the found kind; if the `=` is missing
after the identifier, `parse` fails with the expected-`ASSIGN` error
naming the found kind; and `"1x = 5"` lexes successfully but fails to
parse — a `ParseError`, not a `LexError`. -/
theorem parse_requires_assignment_shape :
    (∀ (ts : Tokens) (t : Token) (rest : Tokens),
        ts.dropWhile (fun tk => tk.type == TokType.NEWLINE) = t :: rest →
        t.type ≠ .EOF → t.type ≠ .IDENTIFIER →
        parse ts = .error (.expectedIdentifier t.type)) ∧
    (∀ (ts : Tokens) (t : Token) (rest : Tokens),
        ts.dropWhile (fun tk => tk.type == TokType.NEWLINE) = t :: rest →
        t.type = .IDENTIFIER → (curTok rest).type ≠ .ASSIGN →
        parse ts = .error (.expected .ASSIGN (curTok rest).type)) ∧
    parsePipeline "1x = 5".data = .ok (.error (.expectedIdentifier .NUMBER)) :=
  ⟨parse_head_not_identifier, parse_missing_assign, by decide⟩

/-- Witness for Claim C5: a number-first statement fails expecting an
identifier, and an identifier not followed by `=` fails expecting
`ASSIGN`. -/
theorem parse_requires_assignment_shape_witness :
    parse [⟨.NUMBER, ['1']⟩, ⟨.IDENTIFIER, ['x']⟩, ⟨.ASSIGN, ['=']⟩, ⟨.NUMBER, ['5']⟩] =
      .error (.expectedIdentifier .NUMBER) ∧
    parse [⟨.IDENTIFIER, ['x']⟩, ⟨.NUMBER, ['5']⟩] =
      .error (.expected .ASSIGN .NUMBER) :=
  ⟨parse_requires_assignment_shape.1 _ ⟨.NUMBER, ['1']⟩
      [⟨.IDENTIFIER, ['x']⟩, ⟨.ASSIGN, ['=']⟩, ⟨.NUMBER, ['5']⟩]
      (by decide) (by decide) (by decide),
    parse_requires_assignment_shape.2.1 _ ⟨.IDENTIFIER, ['x']⟩ [⟨.NUMBER, ['5']⟩]
      (by decide) rfl (by decide)⟩

/-- Claim C6: an assignment evaluates its right-hand side, stores the
value under the target name (overwriting any prior binding, as the
lookup-after-insert law shows), and returns the value; statements run
in order against one shared environment, so `"x = 10\ny = x + 1"` ends
with `x = 10` and `y = 11`. -/
theorem assignment_updates_shared_env :
    (∀ (name : List Char) (e : ASTNode) (env env₁ : Env) (v : ℚ),
        evaluate e env = (env₁, .ok v) →
        evaluate (.Assign name e) env = (insertVar env₁ name v, .ok v)) ∧
    (∀ (env : Env) (n : List Char) (v : ℚ),
        lookupVar (insertVar env n v) n = some v) ∧
    finalEnv "x = 10\ny = x + 1".data = some [(['x'], 10), (['y'], 11)] :=
  ⟨evaluate_assign_ok, lookupVar_insertVar, by decide⟩

/-- Witness for Claim C6 at `x = 7` in the empty environment. -/
theorem assignment_updates_shared_env_witness :
    evaluate (.Assign ['x'] (.Number 7)) [] = (insertVar [] ['x'] 7, .ok 7) ∧
    lookupVar (insertVar [] ['x'] 7) ['x'] = some 7 :=
  ⟨assignment_updates_shared_env.1 ['x'] (.Number 7) [] [] 7 (by decide),
    assignment_updates_shared_env.2.1 [] ['x'] 7⟩

/-- Claim C7: the parse loop consumes a `NEWLINE` token without
producing a statement, so `"x = 1\n\n\ny = 2"` parses to exactly the
two assignments. -/
theorem parse_skips_newlines :
    (∀ (fuel : Nat) (v : List Char) (ts : Tokens),
        parseF (fuel + 1) (⟨.NEWLINE, v⟩ :: ts) = parseF fuel ts) ∧
    parsePipeline "x = 1\n\n\ny = 2".data =
      .ok (.ok [.Assign ['x'] (.Number 1), .Assign ['y'] (.Number 2)]) :=
  ⟨fun fuel v ts => parseF_newline fuel ⟨.NEWLINE, v⟩ ts rfl, by decide⟩

/-- Claim C8 (code evidence): the lexer cannot fail at all — on the
lone unmatched character `$` it returns a `MISMATCH` token instead of
raising, so the error that the claim says carries the character and its
offset is unreachable (and the raise in the source would carry only the
character). -/
theorem tokenize_unmatched_char_no_error :
    tokenize "$".data = .ok [⟨.MISMATCH, ['$']⟩] := by decide

/-- Claim C9: the pipeline is deterministic — two runs of
tokenize/parse/evaluate on the same input produce the same token
sequence, AST and final environment; all three stages are pure
functions of the source text. -/
theorem pipeline_deterministic (code : List Char)
    (r₁ r₂ : Except LexErr (Tokens × Except ParseErr (List ASTNode × Env × Option EvalErr)))
    (h₁ : runPipeline code = r₁) (h₂ : runPipeline code = r₂) : r₁ = r₂ :=
  h₁ ▸ h₂ ▸ rfl

/-- Witness for Claim C9 at a concrete program. -/
theorem pipeline_deterministic_witness :
    runPipeline "x = 2 + 3 * 4".data = runPipeline "x = 2 + 3 * 4".data :=
  pipeline_deterministic "x = 2 + 3 * 4".data _ _ rfl rfl

/-- Claim C10: the lexer terminates on every input: on any nonempty
remainder some pattern of the priority table matches a nonempty prefix
(`NEWLINE` accepts a newline, the catch-all accepts anything else), so
the cursor strictly advances, and fuel equal to the remaining length is
never exhausted — the loop always returns. -/
theorem tokenize_terminates :
    (∀ (c : Char) (cs : List Char), ∃ tt m r, findMatch (c :: cs) = some (tt, m, r) ∧
        m ≠ [] ∧ m ++ r = c :: cs ∧ r.length < (c :: cs).length) ∧
    (∀ (fuel : Nat) (cs : List Char), cs.length ≤ fuel →
        ∃ ts, tokenizeAux fuel cs = .ok ts) :=
  ⟨findMatch_progress, tokenizeAux_ok⟩

/-- Witness for Claim C10 at the one-character input `x` with fuel 1. -/
theorem tokenize_terminates_witness :
    (∃ tt m r, findMatch ['x'] = some (tt, m, r) ∧ m ≠ [] ∧ m ++ r = ['x'] ∧
        r.length < (['x'] : List Char).length) ∧
    (∃ ts, tokenizeAux 1 ['x'] = .ok ts) :=
  ⟨tokenize_terminates.1 'x' [], tokenize_terminates.2 1 ['x'] (by decide)⟩

end
